import Mathlib

/-!
Verification of the log-monitor pipeline.

A shallow embedding of `log_monitor.py`: the record parser (`parse_log`),
the job matcher (`monitor_jobs`) and the threshold classifier
(`log_report`), together with proofs relating them to their specification.

Times of day are represented as seconds since midnight (`Nat`); every
timestamp parsed by the source carries the same implicit date
(1900-01-01), so subtraction of two timestamps equals the difference of
their seconds-of-day, represented as an `Int` number of seconds
(Python `timedelta`s in this program are always whole seconds).
-/

namespace LogMonitor

/-- One parsed log record: the dictionary built by `parse_log`
(`time`, `description`, `event`, `pid`). -/
structure LogEntry where
  time : Nat
  description : String
  event : String
  pid : String
deriving DecidableEq, Repr

/-- The value stored in the open-jobs dictionary `jobs[pid]`
(`start_time` and `description`). -/
structure OpenJob where
  start_time : Nat
  description : String
deriving DecidableEq, Repr

/-- One element of the list returned by `monitor_jobs`. -/
structure Report where
  pid : String
  description : String
  start_time : Nat
  end_time : Nat
  duration : Int
deriving DecidableEq, Repr

/-! ## CSV record splitting

`parse_log` runs `csv.reader` (default dialect: delimiter `,`,
quote character `"`, doubled quotes, non-strict) over the list of
lines; each input string yields one record.  The reader raises
`csv.Error` when a newline character is followed by further record
text ("new-line character seen in unquoted field"); this is modelled
by returning `none`. -/

/-- States of the csv field-splitting automaton. -/
inductive CsvState where
  | startRecord
  | startField
  | inField
  | inQuoted
  | quoteInQuoted
  | eatCRNL
deriving DecidableEq, Repr

/-- One step of the csv automaton on one character; `field` is the
field being accumulated and `fields` the completed fields in reverse
order.  `none` models `csv.Error` ("new-line character seen in
unquoted field"): record text after the terminating newline run. -/
def csvStep (st : CsvState) (field : String) (fields : List String) (c : Char) :
    Option (CsvState × String × List String) :=
  match st with
  | .startRecord =>
    if c = '\n' ∨ c = '\r' then some (.eatCRNL, "", fields)
    else if c = ',' then some (.startField, "", "" :: fields)
    else if c = '"' then some (.inQuoted, "", fields)
    else some (.inField, String.singleton c, fields)
  | .startField =>
    if c = '\n' ∨ c = '\r' then some (.eatCRNL, "", "" :: fields)
    else if c = ',' then some (.startField, "", "" :: fields)
    else if c = '"' then some (.inQuoted, "", fields)
    else some (.inField, String.singleton c, fields)
  | .inField =>
    if c = '\n' ∨ c = '\r' then some (.eatCRNL, "", field :: fields)
    else if c = ',' then some (.startField, "", field :: fields)
    else some (.inField, field.push c, fields)
  | .inQuoted =>
    if c = '"' then some (.quoteInQuoted, field, fields)
    else some (.inQuoted, field.push c, fields)
  | .quoteInQuoted =>
    if c = '"' then some (.inQuoted, field.push '"', fields)
    else if c = ',' then some (.startField, "", field :: fields)
    else if c = '\n' ∨ c = '\r' then some (.eatCRNL, "", field :: fields)
    else some (.inField, field.push c, fields)
  | .eatCRNL =>
    if c = '\n' ∨ c = '\r' then some (.eatCRNL, "", fields)
    else none

/-- The record emitted when the input ends in state `st` (an open
quoted field is emitted as accumulated: the non-strict reader does
not require a closing quote at end of input). -/
def endRecord (st : CsvState) (field : String) (fields : List String) : List String :=
  match st with
  | .startRecord => fields.reverse
  | .startField => fields.reverse ++ [""]
  | .inField => fields.reverse ++ [field]
  | .inQuoted => fields.reverse ++ [field]
  | .quoteInQuoted => fields.reverse ++ [field]
  | .eatCRNL => fields.reverse

/-- Run the automaton over characters treated as the whole remaining
input: the record ends with them.  `none` models `csv.Error`. -/
def splitGo : List Char → CsvState → String → List String → Option (List String)
  | [], st, field, fields => some (endRecord st field fields)
  | c :: cs, st, field, fields =>
    match csvStep st field fields c with
    | some (st', field', fields') => splitGo cs st' field' fields'
    | none => none

/-- The csv row of one raw line when its record is contained in the
line (`none` models a `csv.Error`, which the source does not catch). -/
def splitRecord (line : String) : Option (List String) :=
  splitGo line.data .startRecord "" []

/-- Run the automaton over one line of the stream.  At the end of the
line the record is complete (`Sum.inl` the row) unless the line ends
inside an open quoted field, in which case `csv.reader` continues the
record into the following lines (`Sum.inr` the accumulated field and
reversed fields). -/
def runLine : List Char → CsvState → String → List String →
    Except String (Sum (List String) (String × List String))
  | [], st, field, fields =>
    match st with
    | .inQuoted => Except.ok (Sum.inr (field, fields))
    | _ => Except.ok (Sum.inl (endRecord st field fields))
  | c :: cs, st, field, fields =>
    match csvStep st field fields c with
    | some (st', field', fields') => runLine cs st' field' fields'
    | none => Except.error "new-line character seen in unquoted field"

/-- `csv.reader` over a list of lines: each line normally yields one
record, but a line ending inside an open quoted field continues its
record into the following lines, and a still-open quoted record at
end of input is emitted as accumulated.  Returns the records produced
before any `csv.Error`, and that error when the iteration raises
one. -/
def readRows : List String → CsvState → String → List String →
    List (List String) × Option String
  | [], .inQuoted, field, fields => ([fields.reverse ++ [field]], none)
  | [], _, _, _ => ([], none)
  | l :: ls, st, field, fields =>
    match runLine l.data st field fields with
    | Except.error e => ([], some e)
    | Except.ok (Sum.inl row) =>
      let r := readRows ls .startRecord "" []
      (row :: r.1, r.2)
    | Except.ok (Sum.inr (field', fields')) => readRows ls .inQuoted field' fields'

/-- The rows `csv.reader(lines)` yields, with the `csv.Error` when
the iteration raises one. -/
def splitRecords (lines : List String) : List (List String) × Option String :=
  readRows lines CsvState.startRecord "" []

/-- The line leaves a quoted field open at its end, so `csv.reader`
merges it with the following lines instead of yielding it as its own
record. -/
def endsInOpenQuote (line : String) : Bool :=
  match runLine line.data CsvState.startRecord "" [] with
  | Except.ok (Sum.inr _) => true
  | _ => false

/-! ## Python string helpers

`str.strip()`, `str.upper()` and digit parsing, restricted to the
ASCII repertoire the log format uses. -/

/-- Python `str.strip()`: drop leading and trailing whitespace. -/
def pyStrip (s : String) : String :=
  ⟨((s.data.dropWhile Char.isWhitespace).reverse.dropWhile Char.isWhitespace).reverse⟩

/-- Python `str.upper()` (ASCII letters). -/
def pyUpper (s : String) : String :=
  ⟨s.data.map Char.toUpper⟩

/-- The numeric value of a digit string: `some` iff the string is
nonempty and all digits. -/
def digitsVal (cs : List Char) : Option Nat :=
  if cs ≠ [] ∧ cs.all Char.isDigit then
    some (cs.foldl (fun n c => n * 10 + (c.toNat - 48)) 0)
  else none

/-- One component of `"%H:%M:%S"`: one or two digits, value at most
`hi` (23 for hours, 59 for minutes and seconds). -/
def timePart (s : String) (hi : Nat) : Option Nat :=
  if s.data.length ≤ 2 then
    (digitsVal s.data).bind (fun n => if n ≤ hi then some n else none)
  else none

/-- Split a character list at each colon. -/
def splitColons (cs : List Char) : List String :=
  match cs with
  | [] => [""]
  | c :: rest =>
    match splitColons rest with
    | [] => [""]
    | f :: fs => if c = ':' then "" :: f :: fs else (String.singleton c ++ f) :: fs

/-- `datetime.strptime(s, "%H:%M:%S")`, as seconds since midnight.
The pattern must consume the whole string; hours run 0-23 and minutes
and seconds 0-59 (`strptime` also matches 60 and 61 seconds but the
`datetime` constructor then raises `ValueError`, which the source
catches the same way as a match failure). -/
def strptimeHMS (s : String) : Option Nat :=
  match splitColons s.data with
  | [h, m, sec] =>
    match timePart h 23, timePart m 59, timePart sec 59 with
    | some a, some b, some c => some (a * 3600 + b * 60 + c)
    | _, _, _ => none
  | _ => none

/-- Equality of `Except` results is decidable. -/
instance {ε α : Type} [DecidableEq ε] [DecidableEq α] : DecidableEq (Except ε α) := fun x y =>
  match x, y with
  | .ok a, .ok b =>
    if h : a = b then isTrue (by rw [h]) else isFalse (fun hc => h (Except.ok.inj hc))
  | .error a, .error b =>
    if h : a = b then isTrue (by rw [h]) else isFalse (fun hc => h (Except.error.inj hc))
  | .ok _, .error _ => isFalse (fun hc => Except.noConfusion hc)
  | .error _, .ok _ => isFalse (fun hc => Except.noConfusion hc)

/-! ## The record parser -/

/-- One `print` diagnostic emitted by `parse_log`. -/
inductive Diag where
  | skippingMalformed (row : List String)
  | invalidTimeFormat (row : List String)
  | currentRow (row : List String)
deriving DecidableEq, Repr

/-- The loop of `parse_log` over the rows `csv.reader` yields: the
guard `len(row) < 4` skips the row, the unpacking
`time_str, description, event, pid = row` raises `ValueError` when
the row has more than four fields, and a `strptime` failure is caught
and skips the row.  `err` is the `csv.Error` the row iteration raises
after its last row, if any (it is reached only when every earlier row
unpacks).  Returns the diagnostics printed before any uncaught
exception, and either the entries or the uncaught exception's
message. -/
def parseRows : List (List String) → Option String → List Diag × Except String (List LogEntry)
  | [], none => ([], Except.ok [])
  | [], some e => ([], Except.error e)
  | row :: rest, err =>
    if row.length < 4 then
      let r := parseRows rest err
      (Diag.skippingMalformed row :: r.1, r.2)
    else
      match row with
      | [time_str, description, event, pid] =>
        match strptimeHMS (pyStrip time_str) with
        | none =>
          let r := parseRows rest err
          (Diag.invalidTimeFormat row :: r.1, r.2)
        | some time =>
          let r := parseRows rest err
          (Diag.currentRow row :: r.1,
            r.2.map (fun es =>
              { time := time, description := pyStrip description,
                event := pyUpper (pyStrip event), pid := pyStrip pid } :: es))
      | _ => ([], Except.error "too many values to unpack (expected 4)")

/-- The body of `parse_log`: feed the reader's rows to the row
loop. -/
def parseGo (lines : List String) : List Diag × Except String (List LogEntry) :=
  parseRows (splitRecords lines).1 (splitRecords lines).2

/-- `parse_log(lines)`: the returned entry list, or the uncaught
exception. -/
def parse_log (lines : List String) : Except String (List LogEntry) :=
  (parseGo lines).2

/-- The diagnostics printed by `parse_log(lines)`. -/
def parseDiags (lines : List String) : List Diag :=
  (parseGo lines).1

/-! ## The job matcher -/

/-- The open-jobs dictionary of `monitor_jobs`, observed through
lookup by pid: `jobs pid` is `jobs.get(pid)`. -/
def Jobs : Type := String → Option OpenJob

/-- `jobs[pid] = v` (insert or overwrite), and with `v = none`,
`del jobs[pid]`. -/
def setJob (jobs : Jobs) (p : String) (v : Option OpenJob) : Jobs :=
  fun q => if q = p then v else jobs q

/-- The loop of `monitor_jobs`: a `START` entry overwrites the open
job for its pid; an `END` entry whose pid has an open job emits a
report (duration `end_time - start_time`) and deletes the pid; any
other entry, and an `END` with no open job, does nothing. -/
def monitorGo (jobs : Jobs) : List LogEntry → List Report
  | [] => []
  | entry :: rest =>
    if entry.event = "START" then
      monitorGo (setJob jobs entry.pid (some ⟨entry.time, entry.description⟩)) rest
    else if entry.event = "END" then
      match jobs entry.pid with
      | some oj =>
        { pid := entry.pid, description := oj.description, start_time := oj.start_time,
          end_time := entry.time,
          duration := (entry.time : Int) - (oj.start_time : Int) } ::
          monitorGo (setJob jobs entry.pid none) rest
      | none => monitorGo jobs rest
    else monitorGo jobs rest

/-- `monitor_jobs(entries)`: run the matcher from an empty dictionary. -/
def monitor_jobs (entries : List LogEntry) : List Report :=
  monitorGo (fun _ => none) entries

/-! ## The threshold classifier -/

/-- `WARNING_THRESHOLD = timedelta(minutes=5)`, in seconds. -/
def WARNING_THRESHOLD : Int := 5 * 60

/-- `ERROR_THRESHOLD = timedelta(minutes=10)`, in seconds. -/
def ERROR_THRESHOLD : Int := 10 * 60

/-- Zero-pad to two digits (the `%02d` pieces of `timedelta.__str__`). -/
def pad2 (n : Nat) : String :=
  if n < 10 then "0" ++ toString n else toString n

/-- `H:MM:SS` for a nonnegative number of seconds below one day:
hours unpadded, minutes and seconds zero-padded. -/
def clockStr (secs : Nat) : String :=
  toString (secs / 3600) ++ ":" ++ pad2 (secs % 3600 / 60) ++ ":" ++ pad2 (secs % 60)

/-- The day component of a `timedelta` of `d` seconds
(Python normalizes with floor division: `0 <= seconds < 86400`). -/
def timedeltaDays (d : Int) : Int := Int.fdiv d 86400

/-- The within-day seconds of a `timedelta` of `d` seconds. -/
def timedeltaSecs (d : Int) : Nat := (Int.fmod d 86400).toNat

/-- `str(timedelta(seconds=d))`: an optional day component (singular
for `1` and `-1`), then `H:MM:SS`. -/
def timedeltaStr (d : Int) : String :=
  let days := timedeltaDays d
  let clock := clockStr (timedeltaSecs d)
  if days = 0 then clock
  else if days = 1 ∨ days = -1 then toString days ++ " day, " ++ clock
  else toString days ++ " days, " ++ clock

/-- The line written for a job at a given severity:
`"{SEVERITY}: Job {pid} ({description}) took {duration}\n"`. -/
def reportLine (severity : String) (job : Report) : String :=
  severity ++ ": Job " ++ job.pid ++ " (" ++ job.description ++ ") took " ++
    timedeltaStr job.duration ++ "\n"

/-- The loop of `log_report`, collecting the strings written to the
report file: `ERROR` above `ERROR_THRESHOLD`, else `WARNING` above
`WARNING_THRESHOLD`, else nothing. -/
def log_report : List Report → List String
  | [] => []
  | job :: rest =>
    if job.duration > ERROR_THRESHOLD then reportLine "ERROR" job :: log_report rest
    else if job.duration > WARNING_THRESHOLD then reportLine "WARNING" job :: log_report rest
    else log_report rest

/-- The lines contributed by one job in `log_report`. -/
def jobLines (job : Report) : List String :=
  if job.duration > ERROR_THRESHOLD then [reportLine "ERROR" job]
  else if job.duration > WARNING_THRESHOLD then [reportLine "WARNING" job]
  else []

/-! ## Declarative matching specification

The specification describes the matcher's output without reference to
the open-jobs dictionary: a `CompletedJob` is emitted per `END` entry
paired, purely by most-recent-unmatched-`START` for its pid, with a
`START` that no later `START` for the pid overrides and no earlier
`END` for the pid consumes.  These definitions transcribe that
description; the refinement theorems relate them to `monitor_jobs`. -/

/-- `[s, s+1, ..., s+k-1]`. -/
def rangeFrom : Nat → Nat → List Nat
  | _, 0 => []
  | s, k + 1 => s :: rangeFrom (s + 1) k

/-- Position `i` of `es` holds a `START` entry for pid `p`. -/
def isStartAt (es : List LogEntry) (p : String) (i : Nat) : Bool :=
  match es.get? i with
  | some e => decide (e.pid = p ∧ e.event = "START")
  | none => false

/-- Position `i` of `es` holds an `END` entry for pid `p`. -/
def isEndAt (es : List LogEntry) (p : String) (i : Nat) : Bool :=
  match es.get? i with
  | some e => decide (e.pid = p ∧ e.event = "END")
  | none => false

/-- The positions of `START` entries for pid `p` strictly before
position `j`, in increasing order. -/
def startsBefore (es : List LogEntry) (p : String) (j : Nat) : List Nat :=
  (rangeFrom 0 j).filter (isStartAt es p)

/-- No `END` entry for pid `p` lies strictly between positions `i`
and `j`. -/
def noEndWithin (es : List LogEntry) (p : String) (i j : Nat) : Bool :=
  (rangeFrom (i + 1) (j - i - 1)).all (fun k => !(isEndAt es p k))

/-- The most-recent-unmatched-`START` for pid `p` before position
`j`: the last `START` for `p` before `j`, provided no `END` for `p`
has consumed it in between. -/
def openStart (es : List LogEntry) (p : String) (j : Nat) : Option Nat :=
  (startsBefore es p j).getLast?.bind
    (fun i => if noEndWithin es p i j then some i else none)

/-- The `CompletedJob` the specification assigns to position `j`:
one is emitted exactly when `j` holds an `END` entry with an open
`START`, taking description and start time from that `START`. -/
def matchAt (es : List LogEntry) (j : Nat) : Option Report :=
  (es.get? j).bind fun e =>
    if e.event = "END" then
      (openStart es e.pid j).bind fun i =>
        (es.get? i).map fun s =>
          { pid := e.pid, description := s.description, start_time := s.time,
            end_time := e.time, duration := (e.time : Int) - (s.time : Int) }
    else none

/-- The specification's matching function: the completed jobs in
order of their `END` positions. -/
def matchSpec (es : List LogEntry) : List Report :=
  (rangeFrom 0 es.length).filterMap (matchAt es)

/-- The open job the specification predicts for pid `p` after the
first `n` entries. -/
def expectedJob (es : List LogEntry) (n : Nat) (p : String) : Option OpenJob :=
  (openStart es p n).bind fun i => (es.get? i).map fun s => ⟨s.time, s.description⟩

/-- The dictionary agrees with the specification's prediction. -/
def stateOK (es : List LogEntry) (n : Nat) (jobs : Jobs) : Prop :=
  ∀ p, jobs p = expectedJob es n p

/-! ## Lemmas about the index ranges of the specification -/

theorem rangeFrom_succ_right (s k : Nat) :
    rangeFrom s (k + 1) = rangeFrom s k ++ [s + k] := by
  induction k generalizing s with
  | zero => simp [rangeFrom]
  | succ k ih =>
    show s :: rangeFrom (s + 1) (k + 1) = (s :: rangeFrom (s + 1) k) ++ [s + (k + 1)]
    rw [ih (s + 1)]
    have h : s + 1 + k = s + (k + 1) := by omega
    rw [h, List.cons_append]

theorem mem_rangeFrom {x : Nat} : ∀ {s k : Nat}, x ∈ rangeFrom s k ↔ s ≤ x ∧ x < s + k := by
  intro s k
  induction k generalizing s with
  | zero => simp [rangeFrom]
  | succ k ih =>
    show x ∈ s :: rangeFrom (s + 1) k ↔ _
    simp only [List.mem_cons, ih]
    omega

theorem mem_of_getLast?_eq : ∀ {l : List Nat} {a : Nat}, l.getLast? = some a → a ∈ l
  | [], _, h => by simp at h
  | [x], a, h => by
    simp [List.getLast?] at h
    simp [h]
  | x :: y :: t, a, h => by
    rw [List.getLast?_cons_cons] at h
    exact List.mem_cons_of_mem _ (mem_of_getLast?_eq h)

theorem isStartAt_iff {es : List LogEntry} {p : String} {i : Nat} :
    isStartAt es p i = true ↔
      ∃ e, es.get? i = some e ∧ e.pid = p ∧ e.event = "START" := by
  unfold isStartAt
  cases h : es.get? i <;> simp [h]

theorem isEndAt_iff {es : List LogEntry} {p : String} {i : Nat} :
    isEndAt es p i = true ↔
      ∃ e, es.get? i = some e ∧ e.pid = p ∧ e.event = "END" := by
  unfold isEndAt
  cases h : es.get? i <;> simp [h]

theorem startsBefore_succ (es : List LogEntry) (p : String) (j : Nat) :
    startsBefore es p (j + 1) =
      startsBefore es p j ++ (if isStartAt es p j then [j] else []) := by
  unfold startsBefore
  rw [rangeFrom_succ_right, List.filter_append]
  congr 1
  cases h : isStartAt es p j <;> simp [List.filter, Nat.zero_add, h]

theorem mem_startsBefore {es : List LogEntry} {p : String} {j i : Nat}
    (h : i ∈ startsBefore es p j) : i < j ∧ isStartAt es p i = true := by
  unfold startsBefore at h
  obtain ⟨hm, hs⟩ := List.mem_filter.1 h
  refine ⟨?_, hs⟩
  have := mem_rangeFrom.1 hm
  omega

theorem noEndWithin_self (es : List LogEntry) (p : String) (j : Nat) :
    noEndWithin es p j (j + 1) = true := by
  unfold noEndWithin
  have h : j + 1 - j - 1 = 0 := by omega
  rw [h]
  rfl

theorem noEndWithin_succ {es : List LogEntry} {p : String} {i j : Nat} (h : i < j) :
    noEndWithin es p i (j + 1) = (noEndWithin es p i j && !(isEndAt es p j)) := by
  unfold noEndWithin
  have h1 : j + 1 - i - 1 = (j - i - 1) + 1 := by omega
  rw [h1, rangeFrom_succ_right, List.all_append]
  have h2 : i + 1 + (j - i - 1) = j := by omega
  rw [h2]
  simp

theorem openStart_zero (es : List LogEntry) (p : String) : openStart es p 0 = none := rfl

theorem openStart_succ_start {es : List LogEntry} {p : String} {j : Nat} {e : LogEntry}
    (he : es.get? j = some e) (hp : e.pid = p) (hev : e.event = "START") :
    openStart es p (j + 1) = some j := by
  unfold openStart
  rw [startsBefore_succ]
  have hb : isStartAt es p j = true := isStartAt_iff.2 ⟨e, he, hp, hev⟩
  rw [hb, if_pos rfl, List.getLast?_concat, Option.some_bind, noEndWithin_self, if_pos rfl]

theorem openStart_succ_end {es : List LogEntry} {p : String} {j : Nat} {e : LogEntry}
    (he : es.get? j = some e) (hp : e.pid = p) (hev : e.event = "END") :
    openStart es p (j + 1) = none := by
  unfold openStart
  rw [startsBefore_succ]
  have hb : isStartAt es p j = false := by
    unfold isStartAt
    rw [he]
    simp [hp, hev]
  rw [hb]
  simp only [if_neg Bool.false_ne_true, List.append_nil]
  cases hl : (startsBefore es p j).getLast? with
  | none => rfl
  | some i =>
    have hi := mem_startsBefore (mem_of_getLast?_eq hl)
    rw [Option.some_bind, noEndWithin_succ hi.1]
    have hE : isEndAt es p j = true := isEndAt_iff.2 ⟨e, he, hp, hev⟩
    simp [hE]

theorem openStart_succ_other {es : List LogEntry} {p : String} {j : Nat} {e : LogEntry}
    (he : es.get? j = some e)
    (h : e.pid ≠ p ∨ (e.event ≠ "START" ∧ e.event ≠ "END")) :
    openStart es p (j + 1) = openStart es p j := by
  unfold openStart
  rw [startsBefore_succ]
  have hb : isStartAt es p j = false := by
    unfold isStartAt
    rw [he]
    simp only [decide_eq_false_iff_not]
    rintro ⟨hp, hev⟩
    rcases h with h | ⟨h1, _⟩
    · exact h hp
    · exact h1 hev
  rw [hb]
  simp only [if_neg Bool.false_ne_true, List.append_nil]
  cases hl : (startsBefore es p j).getLast? with
  | none => rfl
  | some i =>
    have hi := mem_startsBefore (mem_of_getLast?_eq hl)
    rw [Option.some_bind, Option.some_bind, noEndWithin_succ hi.1]
    have hE : isEndAt es p j = false := by
      unfold isEndAt
      rw [he]
      simp only [decide_eq_false_iff_not]
      rintro ⟨hp, hev⟩
      rcases h with h | ⟨_, h2⟩
      · exact h hp
      · exact h2 hev
    simp [hE]

theorem openStart_valid {es : List LogEntry} {p : String} {j i : Nat}
    (h : openStart es p j = some i) :
    i < j ∧ ∃ s, es.get? i = some s ∧ s.pid = p ∧ s.event = "START" := by
  unfold openStart at h
  cases hl : (startsBefore es p j).getLast? with
  | none => rw [hl, Option.none_bind] at h; cases h
  | some i' =>
    rw [hl, Option.some_bind] at h
    by_cases hn : noEndWithin es p i' j = true
    · rw [if_pos hn] at h
      cases h
      have hi := mem_startsBefore (mem_of_getLast?_eq hl)
      exact ⟨hi.1, isStartAt_iff.1 hi.2⟩
    · rw [if_neg hn] at h
      cases h

/-! ## Refinement: the matcher loop implements the specification

The invariant ties the open-jobs dictionary after `n` processed
entries to the specification's most-recent-unmatched-`START`. -/

theorem expectedJob_succ_start {es : List LogEntry} {j : Nat} {e : LogEntry} {p : String}
    (he : es.get? j = some e) (hp : e.pid = p) (hev : e.event = "START") :
    expectedJob es (j + 1) p = some ⟨e.time, e.description⟩ := by
  unfold expectedJob
  rw [openStart_succ_start he hp hev, Option.some_bind, he, Option.map_some']

theorem expectedJob_succ_end {es : List LogEntry} {j : Nat} {e : LogEntry} {p : String}
    (he : es.get? j = some e) (hp : e.pid = p) (hev : e.event = "END") :
    expectedJob es (j + 1) p = none := by
  unfold expectedJob
  rw [openStart_succ_end he hp hev, Option.none_bind]

theorem expectedJob_succ_other {es : List LogEntry} {j : Nat} {e : LogEntry} {p : String}
    (he : es.get? j = some e)
    (h : e.pid ≠ p ∨ (e.event ≠ "START" ∧ e.event ≠ "END")) :
    expectedJob es (j + 1) p = expectedJob es j p := by
  unfold expectedJob
  rw [openStart_succ_other he h]

theorem monitorGo_cons_start {jobs : Jobs} {e : LogEntry} {rest : List LogEntry}
    (h : e.event = "START") :
    monitorGo jobs (e :: rest) =
      monitorGo (setJob jobs e.pid (some ⟨e.time, e.description⟩)) rest := by
  simp only [monitorGo, if_pos h]

theorem monitorGo_cons_end_some {jobs : Jobs} {e : LogEntry} {rest : List LogEntry}
    {st : Nat} {ds : String} (hS : e.event ≠ "START") (hE : e.event = "END")
    (hoj : jobs e.pid = some ⟨st, ds⟩) :
    monitorGo jobs (e :: rest) =
      { pid := e.pid, description := ds, start_time := st, end_time := e.time,
        duration := (e.time : Int) - (st : Int) } ::
        monitorGo (setJob jobs e.pid none) rest := by
  simp only [monitorGo, if_neg hS, if_pos hE, hoj]

theorem monitorGo_cons_end_none {jobs : Jobs} {e : LogEntry} {rest : List LogEntry}
    (hS : e.event ≠ "START") (hE : e.event = "END") (hoj : jobs e.pid = none) :
    monitorGo jobs (e :: rest) = monitorGo jobs rest := by
  simp only [monitorGo, if_neg hS, if_pos hE, hoj]

theorem monitorGo_cons_other {jobs : Jobs} {e : LogEntry} {rest : List LogEntry}
    (hS : e.event ≠ "START") (hE : e.event ≠ "END") :
    monitorGo jobs (e :: rest) = monitorGo jobs rest := by
  simp only [monitorGo, if_neg hS, if_neg hE]

theorem setJob_apply (jobs : Jobs) (p : String) (v : Option OpenJob) (q : String) :
    setJob jobs p v q = if q = p then v else jobs q := rfl

/-- Processing the remaining entries from a dictionary that satisfies
the invariant yields exactly the specification's completed jobs for
the remaining positions. -/
theorem monitorGo_eq (es : List LogEntry) :
    ∀ (k n : Nat) (jobs : Jobs), n + k = es.length → stateOK es n jobs →
      monitorGo jobs (es.drop n) = (rangeFrom n k).filterMap (matchAt es) := by
  intro k
  induction k with
  | zero =>
    intro n jobs hlen _
    rw [List.drop_eq_nil_of_le (by omega)]
    rfl
  | succ k ih =>
    intro n jobs hlen hOK
    have hn : n < es.length := by omega
    have hget : es.get? n = some es[n] := by
      rw [List.get?_eq_getElem?]
      exact List.getElem?_eq_getElem hn
    rw [List.drop_eq_getElem_cons hn]
    revert hget
    generalize es[n] = e
    intro hget
    show monitorGo jobs (e :: es.drop (n + 1)) =
      (rangeFrom n (k + 1)).filterMap (matchAt es)
    have hrange : rangeFrom n (k + 1) = n :: rangeFrom (n + 1) k := rfl
    rw [hrange]
    by_cases hS : e.event = "START"
    · have hmA : matchAt es n = none := by
        unfold matchAt
        have hne : ¬(e.event = "END") := by rw [hS]; decide
        rw [hget, Option.some_bind, if_neg hne]
      rw [List.filterMap_cons_none hmA, monitorGo_cons_start hS]
      refine ih (n + 1) _ (by omega) ?_
      intro p
      rw [setJob_apply]
      by_cases hp : p = e.pid
      · rw [if_pos hp, expectedJob_succ_start hget hp.symm hS]
      · rw [if_neg hp, expectedJob_succ_other hget (Or.inl fun hc => hp hc.symm)]
        exact hOK p
    · by_cases hEnd : e.event = "END"
      · cases hoj : jobs e.pid with
        | some oj =>
          have hexp : expectedJob es n e.pid = some oj := (hOK e.pid).symm.trans hoj
          unfold expectedJob at hexp
          cases hOS : openStart es e.pid n with
          | none => rw [hOS, Option.none_bind] at hexp; cases hexp
          | some i =>
            rw [hOS, Option.some_bind] at hexp
            cases hsget : es.get? i with
            | none => rw [hsget] at hexp; cases hexp
            | some s =>
              rw [hsget, Option.map_some'] at hexp
              have hoj_eq : oj = ⟨s.time, s.description⟩ := (Option.some.inj hexp).symm
              have hoj' : jobs e.pid = some ⟨s.time, s.description⟩ := by
                rw [hoj, hoj_eq]
              have hmA : matchAt es n =
                  some { pid := e.pid, description := s.description, start_time := s.time,
                         end_time := e.time,
                         duration := (e.time : Int) - (s.time : Int) } := by
                unfold matchAt
                rw [hget, Option.some_bind, if_pos hEnd, hOS, Option.some_bind, hsget,
                  Option.map_some']
              rw [List.filterMap_cons_some hmA, monitorGo_cons_end_some hS hEnd hoj']
              congr 1
              refine ih (n + 1) _ (by omega) ?_
              intro p
              rw [setJob_apply]
              by_cases hp : p = e.pid
              · rw [if_pos hp, expectedJob_succ_end hget hp.symm hEnd]
              · rw [if_neg hp, expectedJob_succ_other hget (Or.inl fun hc => hp hc.symm)]
                exact hOK p
        | none =>
          have hexp : expectedJob es n e.pid = none := (hOK e.pid).symm.trans hoj
          have hOS : openStart es e.pid n = none := by
            cases hOS : openStart es e.pid n with
            | none => rfl
            | some i =>
              obtain ⟨_, s, hsg, _, _⟩ := openStart_valid hOS
              unfold expectedJob at hexp
              rw [hOS, Option.some_bind, hsg, Option.map_some'] at hexp
              cases hexp
          have hmA : matchAt es n = none := by
            unfold matchAt
            rw [hget, Option.some_bind, if_pos hEnd, hOS, Option.none_bind]
          rw [List.filterMap_cons_none hmA, monitorGo_cons_end_none hS hEnd hoj]
          refine ih (n + 1) _ (by omega) ?_
          intro p
          by_cases hp : p = e.pid
          · rw [expectedJob_succ_end hget hp.symm hEnd, hp, hoj]
          · rw [expectedJob_succ_other hget (Or.inl fun hc => hp hc.symm)]
            exact hOK p
      · have hmA : matchAt es n = none := by
          unfold matchAt
          rw [hget, Option.some_bind, if_neg hEnd]
        rw [List.filterMap_cons_none hmA, monitorGo_cons_other hS hEnd]
        refine ih (n + 1) _ (by omega) ?_
        intro p
        rw [expectedJob_succ_other hget (Or.inr ⟨hS, hEnd⟩)]
        exact hOK p

/-- The matcher computes exactly the specification's matching. -/
theorem monitor_jobs_eq_matchSpec (es : List LogEntry) : monitor_jobs es = matchSpec es := by
  unfold monitor_jobs matchSpec
  have h := monitorGo_eq es es.length 0 (fun _ => none) (by omega) ?_
  · rw [List.drop_zero] at h
    exact h
  · intro p
    unfold expectedJob
    rw [openStart_zero, Option.none_bind]

/-! ## Lemmas about the classifier -/

theorem log_report_cons (job : Report) (rest : List Report) :
    log_report (job :: rest) =
      if job.duration > ERROR_THRESHOLD then reportLine "ERROR" job :: log_report rest
      else if job.duration > WARNING_THRESHOLD then reportLine "WARNING" job :: log_report rest
      else log_report rest := rfl

/-- Each job contributes its lines independently, in input order. -/
theorem log_report_eq_flatMap (rs : List Report) : log_report rs = rs.flatMap jobLines := by
  induction rs with
  | nil => rfl
  | cons job rest ih =>
    have hcons : (job :: rest).flatMap jobLines = jobLines job ++ rest.flatMap jobLines := by
      simp [List.flatMap]
    rw [log_report_cons, hcons, ← ih]
    unfold jobLines
    by_cases h1 : job.duration > ERROR_THRESHOLD
    · rw [if_pos h1, if_pos h1, List.cons_append, List.nil_append]
    · rw [if_neg h1, if_neg h1]
      by_cases h2 : job.duration > WARNING_THRESHOLD
      · rw [if_pos h2, if_pos h2, List.cons_append, List.nil_append]
      · rw [if_neg h2, if_neg h2, List.nil_append]

theorem log_report_append (rs₁ rs₂ : List Report) :
    log_report (rs₁ ++ rs₂) = log_report rs₁ ++ log_report rs₂ := by
  rw [log_report_eq_flatMap, log_report_eq_flatMap, log_report_eq_flatMap,
    List.flatMap_append]

/-! ## Lemmas for the overwrite-on-duplicate-START semantics -/

theorem monitorGo_congr {jobs1 jobs2 : Jobs} (h : ∀ q, jobs1 q = jobs2 q)
    (es : List LogEntry) : monitorGo jobs1 es = monitorGo jobs2 es := by
  have he : jobs1 = jobs2 := funext h
  rw [he]

/-- Two dictionaries that agree except possibly at pid `p` stay in
agreement while no `END` for `p` is processed, and produce the same
reports; once a `START` for `p` arrives they coincide entirely. -/
theorem monitorGo_agree (p : String) :
    ∀ (mid tail : List LogEntry) (e2 : LogEntry) (jobs1 jobs2 : Jobs),
      e2.event = "START" → e2.pid = p →
      (∀ x ∈ mid, x.pid = p → x.event ≠ "END") →
      (∀ q, q ≠ p → jobs1 q = jobs2 q) →
      monitorGo jobs1 (mid ++ e2 :: tail) = monitorGo jobs2 (mid ++ e2 :: tail) := by
  intro mid
  induction mid with
  | nil =>
    intro tail e2 jobs1 jobs2 h2S h2p _ hagree
    rw [List.nil_append, monitorGo_cons_start h2S, monitorGo_cons_start h2S]
    apply monitorGo_congr
    intro q
    rw [setJob_apply, setJob_apply]
    by_cases hq : q = e2.pid
    · rw [if_pos hq, if_pos hq]
    · rw [if_neg hq, if_neg hq]
      exact hagree q (fun hc => hq (hc.trans h2p.symm))
  | cons x mid ih =>
    intro tail e2 jobs1 jobs2 h2S h2p hmid hagree
    have hmid' : ∀ y ∈ mid, y.pid = p → y.event ≠ "END" :=
      fun y hy => hmid y (List.mem_cons_of_mem x hy)
    show monitorGo jobs1 (x :: (mid ++ e2 :: tail)) = monitorGo jobs2 (x :: (mid ++ e2 :: tail))
    by_cases hxS : x.event = "START"
    · rw [monitorGo_cons_start hxS, monitorGo_cons_start hxS]
      apply ih tail e2 _ _ h2S h2p hmid'
      intro q hq
      rw [setJob_apply, setJob_apply]
      by_cases hqx : q = x.pid
      · rw [if_pos hqx, if_pos hqx]
      · rw [if_neg hqx, if_neg hqx]
        exact hagree q hq
    · by_cases hxE : x.event = "END"
      · have hxp : x.pid ≠ p := fun hc => hmid x (List.mem_cons_self x mid) hc hxE
        have hsame : jobs1 x.pid = jobs2 x.pid := hagree x.pid hxp
        cases hoj : jobs1 x.pid with
        | some oj =>
          obtain ⟨st, ds⟩ := oj
          have hoj2 : jobs2 x.pid = some ⟨st, ds⟩ := by rw [← hsame, hoj]
          rw [monitorGo_cons_end_some hxS hxE hoj, monitorGo_cons_end_some hxS hxE hoj2]
          congr 1
          apply ih tail e2 _ _ h2S h2p hmid'
          intro q hq
          rw [setJob_apply, setJob_apply]
          by_cases hqx : q = x.pid
          · rw [if_pos hqx, if_pos hqx]
          · rw [if_neg hqx, if_neg hqx]
            exact hagree q hq
        | none =>
          have hoj2 : jobs2 x.pid = none := by rw [← hsame, hoj]
          rw [monitorGo_cons_end_none hxS hxE hoj, monitorGo_cons_end_none hxS hxE hoj2]
          exact ih tail e2 _ _ h2S h2p hmid' hagree
      · rw [monitorGo_cons_other hxS hxE, monitorGo_cons_other hxS hxE]
        exact ih tail e2 _ _ h2S h2p hmid' hagree

/-- Deleting a `START` that a later `START` for the same pid
overrides (with no intervening `END` for that pid) does not change
the matcher's output. -/
theorem monitorGo_dup_start {p : String} {e1 e2 : LogEntry} {mid tail : List LogEntry}
    (h1S : e1.event = "START") (h1p : e1.pid = p)
    (h2S : e2.event = "START") (h2p : e2.pid = p)
    (hmid : ∀ x ∈ mid, x.pid = p → x.event ≠ "END") :
    ∀ (pre : List LogEntry) (jobs : Jobs),
      monitorGo jobs (pre ++ e1 :: (mid ++ e2 :: tail)) =
        monitorGo jobs (pre ++ (mid ++ e2 :: tail)) := by
  intro pre
  induction pre with
  | nil =>
    intro jobs
    rw [List.nil_append, List.nil_append, monitorGo_cons_start h1S]
    apply monitorGo_agree p mid tail e2 _ _ h2S h2p hmid
    intro q hq
    rw [setJob_apply, if_neg (fun hc => hq (hc.trans h1p))]
  | cons y pre ih =>
    intro jobs
    show monitorGo jobs (y :: (pre ++ e1 :: (mid ++ e2 :: tail))) =
      monitorGo jobs (y :: (pre ++ (mid ++ e2 :: tail)))
    by_cases hyS : y.event = "START"
    · rw [monitorGo_cons_start hyS, monitorGo_cons_start hyS]
      exact ih _
    · by_cases hyE : y.event = "END"
      · cases hoj : jobs y.pid with
        | some oj =>
          obtain ⟨st, ds⟩ := oj
          rw [monitorGo_cons_end_some hyS hyE hoj, monitorGo_cons_end_some hyS hyE hoj]
          rw [ih _]
        | none =>
          rw [monitorGo_cons_end_none hyS hyE hoj, monitorGo_cons_end_none hyS hyE hoj]
          exact ih _
      · rw [monitorGo_cons_other hyS hyE, monitorGo_cons_other hyS hyE]
        exact ih _

/-! ## Lemmas about the parser -/

theorem timePart_le {s : String} {hi n : Nat} (h : timePart s hi = some n) : n ≤ hi := by
  unfold timePart at h
  by_cases hl : s.data.length ≤ 2
  · rw [if_pos hl] at h
    cases hd : digitsVal s.data with
    | none => rw [hd, Option.none_bind] at h; cases h
    | some m =>
      rw [hd, Option.some_bind] at h
      by_cases hm : m ≤ hi
      · rw [if_pos hm] at h
        cases h
        exact hm
      · rw [if_neg hm] at h
        cases h
  · rw [if_neg hl] at h
    cases h

theorem strptimeHMS_lt {s : String} {t : Nat} (h : strptimeHMS s = some t) : t < 86400 := by
  unfold strptimeHMS at h
  split at h
  · split at h
    · rename_i a b c ha hb hc
      cases h
      have h1 := timePart_le ha
      have h2 := timePart_le hb
      have h3 := timePart_le hc
      omega
    · cases h
  · cases h

theorem parseRows_cons_malformed {row : List String} {rows : List (List String)}
    {err : Option String} (hlen : row.length < 4) :
    parseRows (row :: rows) err =
      (Diag.skippingMalformed row :: (parseRows rows err).1, (parseRows rows err).2) := by
  simp only [parseRows, if_pos hlen]

theorem parseRows_cons_badtime {t d ev p : String} {rows : List (List String)}
    {err : Option String} (hbad : strptimeHMS (pyStrip t) = none) :
    parseRows ([t, d, ev, p] :: rows) err =
      (Diag.invalidTimeFormat [t, d, ev, p] :: (parseRows rows err).1,
        (parseRows rows err).2) := by
  have hlen : ¬([t, d, ev, p].length < 4) := by simp
  simp only [parseRows, if_neg hlen, hbad]

theorem parseRows_cons_ok {t d ev p : String} {rows : List (List String)}
    {err : Option String} {time : Nat} (ht : strptimeHMS (pyStrip t) = some time) :
    parseRows ([t, d, ev, p] :: rows) err =
      (Diag.currentRow [t, d, ev, p] :: (parseRows rows err).1,
        ((parseRows rows err).2).map (fun es =>
          { time := time, description := pyStrip d,
            event := pyUpper (pyStrip ev), pid := pyStrip p } :: es)) := by
  have hlen : ¬([t, d, ev, p].length < 4) := by simp
  simp only [parseRows, if_neg hlen, ht]

theorem four_fields {row : List String} (h : ¬(row.length < 4)) :
    ∃ a b c d tl, row = a :: b :: c :: d :: tl := by
  cases row with
  | nil => simp at h
  | cons a r1 =>
    cases r1 with
    | nil => simp at h
    | cons b r2 =>
      cases r2 with
      | nil => simp at h
      | cons c r3 =>
        cases r3 with
        | nil => simp at h
        | cons d tl => exact ⟨a, b, c, d, tl, rfl⟩

theorem parseRows_cons_overfull {row : List String} {rows : List (List String)}
    {err : Option String} (hlen : 4 < row.length) :
    parseRows (row :: rows) err =
      ([], Except.error "too many values to unpack (expected 4)") := by
  have h4 : ¬(row.length < 4) := by omega
  obtain ⟨a, b, c, d, tl, rfl⟩ := four_fields h4
  cases tl with
  | nil => simp at hlen
  | cons x tl' =>
    have hlen' : ¬((a :: b :: c :: d :: x :: tl').length < 4) := by
      simp only [List.length_cons]
      omega
    simp only [parseRows, if_neg hlen']

/-! ## Bridging the per-line row to the reader

When a line does not end inside an open quoted field, `csv.reader`
yields for it exactly the row `splitRecord` computes, and continues
with the following lines as a fresh stream; a single line is always
its own record. -/

theorem runLine_error_splitGo : ∀ {cs : List Char} {st : CsvState} {field : String}
    {fields : List String} {e : String},
    runLine cs st field fields = Except.error e → splitGo cs st field fields = none := by
  intro cs
  induction cs with
  | nil =>
    intro st f fs e h
    cases st <;> simp [runLine] at h
  | cons c cs ih =>
    intro st f fs e h
    cases hstep : csvStep st f fs c with
    | none => simp only [splitGo, hstep]
    | some trip =>
      obtain ⟨st', f', fs'⟩ := trip
      simp only [runLine, hstep] at h
      simp only [splitGo, hstep]
      exact ih h

theorem runLine_inl_splitGo : ∀ {cs : List Char} {st : CsvState} {field : String}
    {fields : List String} {row : List String},
    runLine cs st field fields = Except.ok (Sum.inl row) →
    splitGo cs st field fields = some row := by
  intro cs
  induction cs with
  | nil =>
    intro st f fs row h
    cases st <;> simp_all [runLine, splitGo]
  | cons c cs ih =>
    intro st f fs row h
    cases hstep : csvStep st f fs c with
    | none =>
      simp only [runLine, hstep] at h
      exact Except.noConfusion h
    | some trip =>
      obtain ⟨st', f', fs'⟩ := trip
      simp only [runLine, hstep] at h
      simp only [splitGo, hstep]
      exact ih h

theorem runLine_inr_splitGo : ∀ {cs : List Char} {st : CsvState} {field : String}
    {fields : List String} {f2 : String} {fs2 : List String},
    runLine cs st field fields = Except.ok (Sum.inr (f2, fs2)) →
    splitGo cs st field fields = some (fs2.reverse ++ [f2]) := by
  intro cs
  induction cs with
  | nil =>
    intro st f fs f2 fs2 h
    cases st <;> simp_all [runLine, splitGo, endRecord]
  | cons c cs ih =>
    intro st f fs f2 fs2 h
    cases hstep : csvStep st f fs c with
    | none =>
      simp only [runLine, hstep] at h
      exact Except.noConfusion h
    | some trip =>
      obtain ⟨st', f', fs'⟩ := trip
      simp only [runLine, hstep] at h
      simp only [splitGo, hstep]
      exact ih h

/-- A single line is one record: whether or not its quote is closed,
`csv.reader` on it alone yields exactly the `splitRecord` row. -/
theorem splitRecords_singleton {line : String} {row : List String}
    (hsp : splitRecord line = some row) : splitRecords [line] = ([row], none) := by
  unfold splitRecords
  cases hrun : runLine line.data .startRecord "" [] with
  | error e =>
    unfold splitRecord at hsp
    rw [runLine_error_splitGo hrun] at hsp
    cases hsp
  | ok v =>
    cases v with
    | inl row' =>
      have h1 := runLine_inl_splitGo hrun
      unfold splitRecord at hsp
      rw [h1] at hsp
      cases hsp
      simp only [readRows, hrun]
    | inr pr =>
      obtain ⟨f2, fs2⟩ := pr
      have h2 := runLine_inr_splitGo hrun
      unfold splitRecord at hsp
      rw [h2] at hsp
      cases hsp
      simp only [readRows, hrun]

/-- A line that does not leave a quote open is its own record, and
the reader continues with the remaining lines independently. -/
theorem splitRecords_cons_of_closed {line : String} {row : List String}
    {rest : List String} (hq : endsInOpenQuote line = false)
    (hsp : splitRecord line = some row) :
    splitRecords (line :: rest) =
      (row :: (splitRecords rest).1, (splitRecords rest).2) := by
  unfold splitRecords
  cases hrun : runLine line.data .startRecord "" [] with
  | error e =>
    unfold splitRecord at hsp
    rw [runLine_error_splitGo hrun] at hsp
    cases hsp
  | ok v =>
    cases v with
    | inl row' =>
      have h1 := runLine_inl_splitGo hrun
      unfold splitRecord at hsp
      rw [h1] at hsp
      cases hsp
      simp only [readRows, hrun]
    | inr pr =>
      exfalso
      unfold endsInOpenQuote at hq
      rw [hrun] at hq
      simp at hq

/-- Every entry a successful parse returns has a time of day below
24 hours. -/
theorem parseRows_times_lt :
    ∀ (rows : List (List String)) (err : Option String) (es : List LogEntry),
      (parseRows rows err).2 = Except.ok es → ∀ e ∈ es, e.time < 86400 := by
  intro rows
  induction rows with
  | nil =>
    intro err es h e he
    cases err with
    | none =>
      simp only [parseRows] at h
      cases h
      simp at he
    | some msg =>
      simp only [parseRows] at h
      exact Except.noConfusion h
  | cons row rest ih =>
    intro err es h e he
    by_cases hlen : row.length < 4
    · rw [parseRows_cons_malformed hlen] at h
      exact ih err es h e he
    · obtain ⟨t, d, ev, p, tl, rfl⟩ := four_fields hlen
      cases tl with
      | cons x tl' =>
        rw [parseRows_cons_overfull (by simp only [List.length_cons]; omega)] at h
        exact Except.noConfusion h
      | nil =>
        cases ht : strptimeHMS (pyStrip t) with
        | none =>
          rw [parseRows_cons_badtime ht] at h
          exact ih err es h e he
        | some time =>
          rw [parseRows_cons_ok ht] at h
          cases hrest : (parseRows rest err).2 with
          | error msg => rw [hrest] at h; cases h
          | ok es' =>
            rw [hrest] at h
            cases h
            rcases List.mem_cons.1 he with he | he
            · rw [he]
              exact strptimeHMS_lt ht
            · exact ih err es' hrest e he

theorem parse_log_times_lt {lines : List String} {es : List LogEntry}
    (h : parse_log lines = Except.ok es) : ∀ e ∈ es, e.time < 86400 :=
  parseRows_times_lt (splitRecords lines).1 (splitRecords lines).2 es h

/-! ## Duration bounds through the matcher -/

/-- Reports produced by the matcher take their start time from the
dictionary and their end time from the `END` entry, and the duration
is their difference. -/
theorem monitorGo_reports_bound :
    ∀ (es : List LogEntry) (jobs : Jobs),
      (∀ p oj, jobs p = some oj → oj.start_time < 86400) →
      (∀ e ∈ es, e.time < 86400) →
      ∀ r ∈ monitorGo jobs es,
        r.start_time < 86400 ∧ r.end_time < 86400 ∧
          r.duration = (r.end_time : Int) - (r.start_time : Int) := by
  intro es
  induction es with
  | nil =>
    intro jobs _ _ r hr
    simp [monitorGo] at hr
  | cons e rest ih =>
    intro jobs hjobs hts r hr
    have hts' : ∀ x ∈ rest, x.time < 86400 := fun x hx => hts x (List.mem_cons_of_mem e hx)
    have hte : e.time < 86400 := hts e (List.mem_cons_self e rest)
    by_cases hS : e.event = "START"
    · rw [monitorGo_cons_start hS] at hr
      refine ih _ ?_ hts' r hr
      intro p oj hoj
      rw [setJob_apply] at hoj
      by_cases hp : p = e.pid
      · rw [if_pos hp] at hoj
        cases hoj
        exact hte
      · rw [if_neg hp] at hoj
        exact hjobs p oj hoj
    · by_cases hE : e.event = "END"
      · cases hoj : jobs e.pid with
        | some oj =>
          obtain ⟨st, ds⟩ := oj
          rw [monitorGo_cons_end_some hS hE hoj] at hr
          rcases List.mem_cons.1 hr with hr | hr
          · rw [hr]
            exact ⟨hjobs e.pid ⟨st, ds⟩ hoj, hte, rfl⟩
          · refine ih _ ?_ hts' r hr
            intro p oj2 hoj2
            rw [setJob_apply] at hoj2
            by_cases hp : p = e.pid
            · rw [if_pos hp] at hoj2
              cases hoj2
            · rw [if_neg hp] at hoj2
              exact hjobs p oj2 hoj2
        | none =>
          rw [monitorGo_cons_end_none hS hE hoj] at hr
          exact ih _ hjobs hts' r hr
      · rw [monitorGo_cons_other hS hE] at hr
        exact ih _ hjobs hts' r hr

/-- For durations that are nonnegative and below one day,
`str(timedelta)` is plain `H:MM:SS` with no day component. -/
theorem timedeltaStr_of_nonneg_lt {d : Int} (h0 : 0 ≤ d) (h1 : d < 86400) :
    timedeltaStr d = clockStr d.toNat := by
  unfold timedeltaStr timedeltaDays timedeltaSecs
  have hdays : Int.fdiv d 86400 = 0 := by
    rw [Int.fdiv_eq_ediv _ (by norm_num)]
    exact Int.ediv_eq_zero_of_lt h0 h1
  have hmod : Int.fmod d 86400 = d := by
    rw [Int.fmod_eq_emod _ (by norm_num)]
    exact Int.emod_eq_of_lt h0 h1
  rw [hdays, hmod, if_pos rfl]

/-! ## The claims -/

/-- C1: the specification states that an input line splitting into
more than four comma-delimited fields (with a valid `HH:MM:SS` time
in field 1) has its extra fields ignored and yields a `LogEntry`.
The code instead raises an uncaught `ValueError` from the unpacking
`time_str, description, event, pid = row`, aborting the parse: here
a five-field line with a valid time makes `parse_log` raise instead
of producing an entry. -/
theorem C1_extra_fields_raise_unpack_error :
    splitRecord "12:00:00,Job A,START,1,extra" =
      some ["12:00:00", "Job A", "START", "1", "extra"] ∧
    strptimeHMS (pyStrip "12:00:00") = some 43200 ∧
    parse_log ["12:00:00,Job A,START,1,extra"] =
      Except.error "too many values to unpack (expected 4)" := by
  refine ⟨by decide, by decide, by decide⟩

/-- C2: the specification states that `parse_log` completes on every
finite list of raw lines and that no input line can abort parsing
mid-batch.  A line with five fields placed between two well-formed
lines aborts the whole batch with an uncaught `ValueError`: nothing
is returned, not even the entries of the well-formed lines. -/
theorem C2_parse_log_aborts_mid_batch :
    parse_log ["08:00:00,A,START,1", "08:00:01,A,x,1,y", "09:00:00,A,END,1"] =
      Except.error "too many values to unpack (expected 4)" := by
  decide

/-- C3: `monitor_jobs` emits exactly one `CompletedJob` per `START`
that is later paired with an `END` for the same pid: its output
equals the declarative matching specification, which produces one
report per `END` entry whose pid has a most-recent-unmatched-`START`
(the last `START` before it with no consuming `END` in between), and
nothing for any other entry — so unmatched `START`s yield no output
and an `END` with no open job is silently ignored. -/
theorem C3_monitor_jobs_matches_spec (es : List LogEntry) :
    monitor_jobs es = matchSpec es :=
  monitor_jobs_eq_matchSpec es

/-- C4: classification is a pure function of duration against the two
thresholds: wherever a job sits in the report list, it contributes no
line when `duration ≤ WARNING_THRESHOLD`, exactly one WARNING line
when `WARNING_THRESHOLD < duration ≤ ERROR_THRESHOLD`, and exactly
one ERROR line when `duration > ERROR_THRESHOLD`; in particular a
duration equal to the error threshold yields WARNING, one equal to
the warning threshold yields nothing, and a negative duration yields
nothing. -/
theorem C4_classification_pure_in_duration (pre post : List Report) (job : Report) :
    log_report (pre ++ job :: post) =
      log_report pre ++
        (if job.duration > ERROR_THRESHOLD then [reportLine "ERROR" job]
         else if job.duration > WARNING_THRESHOLD then [reportLine "WARNING" job]
         else []) ++ log_report post ∧
    jobLines { job with duration := ERROR_THRESHOLD } =
      [reportLine "WARNING" { job with duration := ERROR_THRESHOLD }] ∧
    jobLines { job with duration := WARNING_THRESHOLD } = [] ∧
    jobLines { job with duration := -1 } = [] := by
  refine ⟨?_, ?_, ?_, ?_⟩
  · rw [log_report_eq_flatMap, log_report_eq_flatMap, log_report_eq_flatMap,
      List.flatMap_append]
    have hcons : (job :: post).flatMap jobLines = jobLines job ++ post.flatMap jobLines := by
      simp [List.flatMap]
    rw [hcons, ← List.append_assoc]
    rfl
  · show jobLines _ = _
    unfold jobLines
    rw [show ({ job with duration := ERROR_THRESHOLD } : Report).duration = ERROR_THRESHOLD
        from rfl,
      if_neg (lt_irrefl ERROR_THRESHOLD),
      if_pos (by decide : ERROR_THRESHOLD > WARNING_THRESHOLD)]
  · show jobLines _ = _
    unfold jobLines
    rw [show ({ job with duration := WARNING_THRESHOLD } : Report).duration = WARNING_THRESHOLD
        from rfl,
      if_neg (by decide : ¬(WARNING_THRESHOLD > ERROR_THRESHOLD)),
      if_neg (lt_irrefl WARNING_THRESHOLD)]
  · show jobLines _ = _
    unfold jobLines
    rw [show ({ job with duration := -1 } : Report).duration = -1 from rfl,
      if_neg (by decide : ¬((-1 : Int) > ERROR_THRESHOLD)),
      if_neg (by decide : ¬((-1 : Int) > WARNING_THRESHOLD))]

/-- C5: a second `START` for the same pid before its `END` discards
the first `START` entirely: deleting the overridden `START` from the
input leaves the matcher's output unchanged (so it produces no output
of its own, and any eventual `CompletedJob` takes the second
`START`'s time and description). -/
theorem C5_second_start_wins (pre mid post : List LogEntry) (e1 e2 : LogEntry)
    (h1S : e1.event = "START") (h2S : e2.event = "START") (hpp : e1.pid = e2.pid)
    (hmid : ∀ x ∈ mid, x.pid = e1.pid → x.event ≠ "END") :
    monitor_jobs (pre ++ e1 :: (mid ++ e2 :: post)) =
      monitor_jobs (pre ++ (mid ++ e2 :: post)) := by
  unfold monitor_jobs
  exact monitorGo_dup_start h1S rfl h2S hpp.symm hmid pre _

/-- C5 witness: overriding `START` at time 100 is discarded; the
completed job uses the second `START`'s time 200 and description. -/
theorem C5_second_start_wins_witness :
    monitor_jobs
        [{ time := 100, description := "A", event := "START", pid := "1" },
         { time := 200, description := "B", event := "START", pid := "1" },
         { time := 500, description := "B", event := "END", pid := "1" }] =
      monitor_jobs
        [{ time := 200, description := "B", event := "START", pid := "1" },
         { time := 500, description := "B", event := "END", pid := "1" }] ∧
    monitor_jobs
        [{ time := 100, description := "A", event := "START", pid := "1" },
         { time := 200, description := "B", event := "START", pid := "1" },
         { time := 500, description := "B", event := "END", pid := "1" }] =
      [{ pid := "1", description := "B", start_time := 200, end_time := 500,
         duration := 300 }] :=
  ⟨C5_second_start_wins [] []
      [{ time := 500, description := "B", event := "END", pid := "1" }]
      { time := 100, description := "A", event := "START", pid := "1" }
      { time := 200, description := "B", event := "START", pid := "1" }
      rfl rfl rfl (fun x hx => absurd hx (List.not_mem_nil x)),
    by decide⟩

/-- C9: completed jobs appear in the order of their matching `END`
entries — the matcher's output is a `filterMap` over the entry
positions in increasing order — and the classifier emits its lines
job by job in that same order, with no reordering. -/
theorem C9_output_order (es : List LogEntry) (rs : List Report) :
    monitor_jobs es = (rangeFrom 0 es.length).filterMap (matchAt es) ∧
    log_report rs = rs.flatMap jobLines :=
  ⟨monitor_jobs_eq_matchSpec es, log_report_eq_flatMap rs⟩

/-- C6 counterexample: the claim quantifies over lines splitting into
at least four fields with a valid time in field 1; this five-field
line with a valid time makes `parse_log` raise instead of
round-tripping the first four fields into an entry. -/
theorem C6_at_least_four_fields_fails :
    splitRecord "12:00:00,a,START,1,x" = some ["12:00:00", "a", "START", "1", "x"] ∧
    strptimeHMS (pyStrip "12:00:00") = some 43200 ∧
    parse_log ["12:00:00,a,START,1,x"] =
      Except.error "too many values to unpack (expected 4)" := by
  refine ⟨by decide, by decide, by decide⟩

/-- C6 (amended to lines splitting into exactly four fields): a valid
record round-trips — the entry's time is the parsed first field, the
description and pid are the given fields trimmed, the event is
trimmed and uppercased; and commas inside quoted fields are not
treated as delimiters. -/
theorem C6_parse_roundtrip (line t d ev p : String) (time : Nat)
    (hsp : splitRecord line = some [t, d, ev, p])
    (ht : strptimeHMS (pyStrip t) = some time) :
    parse_log [line] =
      Except.ok [{ time := time, description := pyStrip d,
                   event := pyUpper (pyStrip ev), pid := pyStrip p }] ∧
    splitRecord "12:00:00,\"a,b\",START,7" = some ["12:00:00", "a,b", "START", "7"] := by
  constructor
  · unfold parse_log parseGo
    rw [splitRecords_singleton hsp]
    show (parseRows [[t, d, ev, p]] none).2 = _
    rw [parseRows_cons_ok ht]
    rfl
  · decide

/-- C6 witness: a concrete four-field record with surrounding
whitespace and a lowercase event round-trips with trimming and
uppercasing. -/
theorem C6_parse_roundtrip_witness :
    splitRecord "01:02:03, hello ,end, 42 " =
      some ["01:02:03", " hello ", "end", " 42 "] ∧
    strptimeHMS (pyStrip "01:02:03") = some 3723 ∧
    parse_log ["01:02:03, hello ,end, 42 "] =
      Except.ok [{ time := 3723, description := pyStrip " hello ",
                   event := pyUpper (pyStrip "end"), pid := pyStrip " 42 " }] ∧
    pyStrip " hello " = "hello" ∧ pyUpper (pyStrip "end") = "END" ∧ pyStrip " 42 " = "42" :=
  ⟨by decide, by decide,
    (C6_parse_roundtrip "01:02:03, hello ,end, 42 " "01:02:03" " hello " "end" " 42 " 3723
      (by decide) (by decide)).1,
    by decide, by decide, by decide⟩

/-- C7 counterexample: the claim states that every line whose first
field does not parse as `HH:MM:SS` is skipped with a diagnostic and
processing continues.  A five-field line with an unparseable time
raises the unpacking `ValueError` before the time is ever parsed: the
batch aborts, no diagnostic is printed, and the following well-formed
line is never processed. -/
theorem C7_bad_time_with_extra_field_aborts :
    splitRecord "aa:bb:cc,x,START,9,z" = some ["aa:bb:cc", "x", "START", "9", "z"] ∧
    strptimeHMS (pyStrip "aa:bb:cc") = none ∧
    parse_log ["aa:bb:cc,x,START,9,z", "10:00:00,y,START,9"] =
      Except.error "too many values to unpack (expected 4)" ∧
    parseDiags ["aa:bb:cc,x,START,9,z", "10:00:00,y,START,9"] = [] := by
  refine ⟨by decide, by decide, by decide, by decide⟩

/-- C7 (amended: the bad-time case restricted to lines splitting into
exactly four fields, and the line must not leave a quoted field open
at its end — otherwise `csv.reader` merges it with the following
lines into one record): a line with fewer than four fields, or a
four-field line whose first field does not parse as `HH:MM:SS`,
produces no entry, emits one diagnostic, and processing continues
with the remaining lines as if the line were absent. -/
theorem C7_malformed_lines_skipped (line : String) (rest : List String)
    (hq : endsInOpenQuote line = false) :
    (∀ row, splitRecord line = some row → row.length < 4 →
      parse_log (line :: rest) = parse_log rest ∧
      parseDiags (line :: rest) = Diag.skippingMalformed row :: parseDiags rest) ∧
    (∀ t d ev p, splitRecord line = some [t, d, ev, p] →
      strptimeHMS (pyStrip t) = none →
      parse_log (line :: rest) = parse_log rest ∧
      parseDiags (line :: rest) = Diag.invalidTimeFormat [t, d, ev, p] :: parseDiags rest) := by
  constructor
  · intro row hsp hlen
    have hgo : parseGo (line :: rest) =
        parseRows (row :: (splitRecords rest).1) (splitRecords rest).2 := by
      unfold parseGo
      rw [splitRecords_cons_of_closed hq hsp]
    constructor
    · show (parseGo (line :: rest)).2 = (parseGo rest).2
      rw [hgo, parseRows_cons_malformed hlen]
      rfl
    · show (parseGo (line :: rest)).1 = _
      rw [hgo, parseRows_cons_malformed hlen]
      rfl
  · intro t d ev p hsp hbad
    have hgo : parseGo (line :: rest) =
        parseRows ([t, d, ev, p] :: (splitRecords rest).1) (splitRecords rest).2 := by
      unfold parseGo
      rw [splitRecords_cons_of_closed hq hsp]
    constructor
    · show (parseGo (line :: rest)).2 = (parseGo rest).2
      rw [hgo, parseRows_cons_badtime hbad]
      rfl
    · show (parseGo (line :: rest)).1 = _
      rw [hgo, parseRows_cons_badtime hbad]
      rfl

/-- C7 witness: a two-field line and a four-field line with an
out-of-range time are each skipped with one diagnostic while the
following well-formed line is still parsed. -/
theorem C7_malformed_lines_skipped_witness :
    parse_log ["badline", "12:00:00,ok,START,5"] = parse_log ["12:00:00,ok,START,5"] ∧
    parseDiags ["badline", "12:00:00,ok,START,5"] =
      Diag.skippingMalformed ["badline"] :: parseDiags ["12:00:00,ok,START,5"] ∧
    parse_log ["99:99:99,a,END,7", "12:00:00,ok,START,5"] =
      parse_log ["12:00:00,ok,START,5"] ∧
    parse_log ["12:00:00,ok,START,5"] =
      Except.ok [{ time := 43200, description := "ok", event := "START", pid := "5" }] :=
  ⟨((C7_malformed_lines_skipped "badline" ["12:00:00,ok,START,5"] (by decide)).1
      ["badline"] (by decide) (by decide)).1,
    ((C7_malformed_lines_skipped "badline" ["12:00:00,ok,START,5"] (by decide)).1
      ["badline"] (by decide) (by decide)).2,
    ((C7_malformed_lines_skipped "99:99:99,a,END,7" ["12:00:00,ok,START,5"] (by decide)).2
      "99:99:99" "a" "END" "7" (by decide) (by decide)).1,
    by decide⟩

/-- C8: every line the classifier writes for a job of the pipeline is
exactly `"{SEVERITY}: Job {pid} ({description}) took {duration}\n"`
with the duration rendered `H:MM:SS` by `clockStr` (hours unpadded,
minutes and seconds zero-padded): ERROR above the error threshold,
else WARNING above the warning threshold. -/
theorem C8_report_line_format (lines : List String) (es : List LogEntry) (s : String)
    (hparse : parse_log lines = Except.ok es)
    (hs : s ∈ log_report (monitor_jobs es)) :
    ∃ r ∈ monitor_jobs es,
      (r.duration > ERROR_THRESHOLD ∧
        s = "ERROR: Job " ++ r.pid ++ " (" ++ r.description ++ ") took " ++
          clockStr r.duration.toNat ++ "\n") ∨
      (r.duration ≤ ERROR_THRESHOLD ∧ r.duration > WARNING_THRESHOLD ∧
        s = "WARNING: Job " ++ r.pid ++ " (" ++ r.description ++ ") took " ++
          clockStr r.duration.toNat ++ "\n") := by
  rw [log_report_eq_flatMap] at hs
  obtain ⟨r, hr, hsr⟩ := List.mem_flatMap.1 hs
  obtain ⟨hst, het, hdur⟩ :=
    monitorGo_reports_bound es (fun _ => none) (fun p oj h => Option.noConfusion h)
      (parse_log_times_lt hparse) r hr
  have hlt : r.duration < 86400 := by rw [hdur]; omega
  refine ⟨r, hr, ?_⟩
  unfold jobLines at hsr
  by_cases h1 : r.duration > ERROR_THRESHOLD
  · rw [if_pos h1] at hsr
    have hs' : s = reportLine "ERROR" r := List.mem_singleton.1 hsr
    refine Or.inl ⟨h1, ?_⟩
    rw [hs']
    unfold reportLine
    rw [timedeltaStr_of_nonneg_lt ?_ hlt]
    · rw [show ("ERROR" ++ ": Job " : String) = "ERROR: Job " from by decide]
    · have h600 : ERROR_THRESHOLD < r.duration := h1
      unfold ERROR_THRESHOLD at h600
      omega
  · rw [if_neg h1] at hsr
    by_cases h2 : r.duration > WARNING_THRESHOLD
    · rw [if_pos h2] at hsr
      have hs' : s = reportLine "WARNING" r := List.mem_singleton.1 hsr
      refine Or.inr ⟨not_lt.1 h1, h2, ?_⟩
      rw [hs']
      unfold reportLine
      rw [timedeltaStr_of_nonneg_lt ?_ hlt]
      · rw [show ("WARNING" ++ ": Job " : String) = "WARNING: Job " from by decide]
      · have h300 : WARNING_THRESHOLD < r.duration := h2
        unfold WARNING_THRESHOLD at h300
        omega
    · rw [if_neg h2] at hsr
      simp at hsr

/-- C8 witness: the six-minute job from the specification's scenario
produces exactly the WARNING line with duration `0:06:00`. -/
theorem C8_report_line_format_witness :
    parse_log ["13:00:00,B,START,2", "13:06:00,B,END,2"] =
      Except.ok
        [{ time := 46800, description := "B", event := "START", pid := "2" },
         { time := 47160, description := "B", event := "END", pid := "2" }] ∧
    "WARNING: Job 2 (B) took 0:06:00\n" ∈
      log_report (monitor_jobs
        [{ time := 46800, description := "B", event := "START", pid := "2" },
         { time := 47160, description := "B", event := "END", pid := "2" }]) ∧
    (∃ r ∈ monitor_jobs
        [{ time := 46800, description := "B", event := "START", pid := "2" },
         { time := 47160, description := "B", event := "END", pid := "2" }],
      (r.duration > ERROR_THRESHOLD ∧
        "WARNING: Job 2 (B) took 0:06:00\n" =
          "ERROR: Job " ++ r.pid ++ " (" ++ r.description ++ ") took " ++
            clockStr r.duration.toNat ++ "\n") ∨
      (r.duration ≤ ERROR_THRESHOLD ∧ r.duration > WARNING_THRESHOLD ∧
        "WARNING: Job 2 (B) took 0:06:00\n" =
          "WARNING: Job " ++ r.pid ++ " (" ++ r.description ++ ") took " ++
            clockStr r.duration.toNat ++ "\n")) :=
  ⟨by decide, by decide,
    C8_report_line_format ["13:00:00,B,START,2", "13:06:00,B,END,2"]
      [{ time := 46800, description := "B", event := "START", pid := "2" },
       { time := 47160, description := "B", event := "END", pid := "2" }]
      "WARNING: Job 2 (B) took 0:06:00\n" (by decide) (by decide)⟩

/-- C10: because every parsed timestamp is a time of day on the same
implicit date, every completed job of the pipeline has a duration
strictly between minus and plus 24 hours, and the rendered duration
of any job the classifier reports (duration above the warning
threshold) is plain `H:MM:SS` with no day component. -/
theorem C10_duration_bounds (lines : List String) (es : List LogEntry) (r : Report)
    (hparse : parse_log lines = Except.ok es) (hr : r ∈ monitor_jobs es) :
    (-86400 < r.duration ∧ r.duration < 86400) ∧
    (r.duration > WARNING_THRESHOLD → timedeltaStr r.duration = clockStr r.duration.toNat) := by
  obtain ⟨hst, het, hdur⟩ :=
    monitorGo_reports_bound es (fun _ => none) (fun p oj h => Option.noConfusion h)
      (parse_log_times_lt hparse) r hr
  constructor
  · rw [hdur]
    omega
  · intro hw
    unfold WARNING_THRESHOLD at hw
    refine timedeltaStr_of_nonneg_lt (by omega) ?_
    rw [hdur]
    omega

/-- C10 witness: a six-minute job has duration 360 seconds, within
the bounds, and renders as `0:06:00` with no day component. -/
theorem C10_duration_bounds_witness :
    parse_log ["10:00:00,J,START,4", "10:06:00,J,END,4"] =
      Except.ok
        [{ time := 36000, description := "J", event := "START", pid := "4" },
         { time := 36360, description := "J", event := "END", pid := "4" }] ∧
    { pid := "4", description := "J", start_time := 36000, end_time := 36360,
      duration := 360 } ∈ monitor_jobs
        [{ time := 36000, description := "J", event := "START", pid := "4" },
         { time := 36360, description := "J", event := "END", pid := "4" }] ∧
    ((-86400 < (360 : Int) ∧ (360 : Int) < 86400) ∧
      ((360 : Int) > WARNING_THRESHOLD →
        timedeltaStr 360 = clockStr (360 : Int).toNat)) ∧
    timedeltaStr 360 = "0:06:00" :=
  ⟨by decide, by decide,
    C10_duration_bounds ["10:00:00,J,START,4", "10:06:00,J,END,4"]
      [{ time := 36000, description := "J", event := "START", pid := "4" },
       { time := 36360, description := "J", event := "END", pid := "4" }]
      { pid := "4", description := "J", start_time := 36000, end_time := 36360,
        duration := 360 }
      (by decide) (by decide),
    by decide⟩

end LogMonitor

